import Mathlib

/-!
Verification of the `readpass` library (Rust): a shallow embedding of its
line-reading, normalization and terminal-mode-guard code, with theorems
settling the behavioral claims of its specification.

Strings are modelled as `List Char` (the code only ever inspects and removes
single characters, so byte indices and char indices select the same content).
I/O failure points (tcgetattr, tcsetattr, read, write) are modelled as
explicit injected-outcome parameters, and terminal settings as an explicit
structure threaded through the computation.
-/

deriving instance DecidableEq for Except

namespace Readpass

/-- Error kinds surfaced by the library, one constructor per distinct
failure source in the code. -/
inductive IOErr where
  | unexpectedEof
  | queryFailed
  | mutationFailed
  | readFailed
  | writeFailed
  | deviceOpenFailed
deriving DecidableEq, Repr

/-- The line-kill control character, value 0x15 (Ctrl-U), which
`fix_line_issues` scans for. -/
def ctrlU : Char := Char.ofNat 0x15

/-- Index of the last occurrence of `c` in `l`, mirroring Rust
`str::rfind(char)` (content-wise: the code slices strictly after this
index, and 0x15 is one byte, so char positions select the same suffix). -/
def rfind (c : Char) : List Char → Option Nat
  | [] => none
  | a :: as =>
    match rfind c as with
    | some i => some (i + 1)
    | none => if a = c then some 0 else none

/-- Embedding of `fix_line_issues` (src/lib.rs): error unless the line ends
with a line feed; pop the line feed; pop one carriage return if present;
if the line contains 0x15, keep only the suffix after its last occurrence. -/
def fix_line_issues (line : List Char) : Except IOErr (List Char) :=
  if line.getLast? ≠ some '\n' then
    .error .unexpectedEof
  else
    let line₁ := line.dropLast
    let line₂ := if line₁.getLast? = some '\r' then line₁.dropLast else line₁
    let line₃ :=
      if ctrlU ∈ line₂ then
        match rfind ctrlU line₂ with
        | some lastCtrlUIndex => line₂.drop (lastCtrlUIndex + 1)
        | none => line₂
      else line₂
    .ok line₃

/-- Embedding of `BufRead::read_line` on an in-memory source: consume bytes
up to and including the first line feed (or to end of input), returning the
line read and the unconsumed remainder. -/
def read_line : List Char → List Char × List Char
  | [] => ([], [])
  | c :: cs =>
    if c = '\n' then ([c], cs)
    else
      let (l, r) := read_line cs
      (c :: l, r)

/-- Embedding of `from_bufread` (src/lib.rs): one `read_line`, then
`fix_line_issues`; also returns the unconsumed remainder of the source so
successive calls can be chained. -/
def from_bufread (src : List Char) : Except IOErr (List Char) × List Char :=
  let (line, rest) := read_line src
  (fix_line_issues line, rest)

/-- Spec-side name for the terminator-trimming stage of `fix_line_issues`:
remove the final line feed, then one carriage return if present. -/
def trimmed (line : List Char) : List Char :=
  let line₁ := line.dropLast
  if line₁.getLast? = some '\r' then line₁.dropLast else line₁

/-- Spec-side name for the line-kill result: the suffix of the line
strictly after the last occurrence of the kill character, taken by
collecting characters from the end while none of them is the kill
character. -/
def killSuffix (l : List Char) : List Char :=
  (l.reverse.takeWhile (fun c => c != ctrlU)).reverse

/-- One buffer-lifetime event during normalization: the bytes a buffer held
at the moment it was deallocated or replaced, and whether the code
overwrote them first. -/
structure BufEvent where
  contents : List Char
  overwrittenBeforeFree : Bool
deriving DecidableEq, Repr

/-- Instrumentation of `fix_line_issues` that records every point at which a
buffer holding possibly-secret bytes is deallocated or replaced. The error
path drops the moved-in line; the line-kill branch builds a fresh suffix
copy with `to_string` and drops the buffer it replaces. The source performs
no overwriting at either point (it contains no erasure call), so each event
records `overwrittenBeforeFree := false`. The in-place pops of the trailing
line feed and carriage return neither free nor reallocate and so produce no
event. -/
def fix_line_issues_traced (line : List Char) :
    Except IOErr (List Char) × List BufEvent :=
  if line.getLast? ≠ some '\n' then
    (.error .unexpectedEof, [⟨line, false⟩])
  else
    let line₁ := line.dropLast
    let line₂ := if line₁.getLast? = some '\r' then line₁.dropLast else line₁
    if ctrlU ∈ line₂ then
      match rfind ctrlU line₂ with
      | some lastCtrlUIndex =>
        (.ok (line₂.drop (lastCtrlUIndex + 1)), [⟨line₂, false⟩])
      | none => (.ok line₂, [])
    else (.ok line₂, [])

/-! Terminal-mode guard, unix variant (src/unix.rs and the unix module of
src/lib.rs). Terminal settings are a `termios` value: its `c_lflag` field
is a 32-bit flag word and every other field is opaque to the code, modelled
as a single opaque `c_rest` component. Syscall failures (`tcgetattr`,
`tcsetattr`, the read) are injected as explicit parameters. -/

/-- The ECHO local-mode flag (bit 3), cleared while input is hidden. -/
def ECHO : Nat := 8

/-- The ECHONL local-mode flag (bit 6), set so the newline typed on Enter
is still echoed. -/
def ECHONL : Nat := 64

/-- All ones in a 32-bit `tcflag_t`; bitwise not of a flag is modelled as
xor with this mask. -/
def TCFLAG_MASK : Nat := 2 ^ 32 - 1

/-- Terminal settings snapshot: the line-discipline flag word plus all
other `termios` fields, which the code never touches, collapsed into one
opaque component. -/
structure Termios where
  c_lflag : Nat
  c_rest : Nat
deriving DecidableEq, Repr

/-- The modified settings computed by `HiddenInput::new`: clear ECHO in
`c_lflag`, set ECHONL, touch nothing else. -/
def hiddenTermios (t : Termios) : Termios :=
  { t with c_lflag := (t.c_lflag &&& (TCFLAG_MASK ^^^ ECHO)) ||| ECHONL }

/-- Observable outcome of one guarded read on the unix side: the returned
value, the unconsumed input, whether a read was attempted, the settings in
force during the read (none if the guard was never applied), and the
settings once the call returns. -/
structure GuardedRead where
  result : Except IOErr (List Char)
  rest : List Char
  readAttempted : Bool
  settingsDuringRead : Option Termios
  finalSettings : Termios
deriving DecidableEq, Repr

/-- Embedding of `from_fd_with_hidden_input` (src/unix.rs): construct the
`HiddenInput` guard (two `tcgetattr` calls, then one `tcsetattr` applying
`hiddenTermios`), read and normalize a line with `from_bufread`, and drop
the guard, which reapplies the `term_orig` snapshot. `failGet1`, `failGet2`
and `failSet` inject failures of the three construction syscalls (a failed
syscall changes nothing); `readErr` injects a read failure; `restoreOk`
tells whether the best-effort `tcsetattr` in `Drop` succeeds. -/
def from_fd_with_hidden_input (t : Termios) (failGet1 failGet2 failSet : Bool)
    (src : List Char) (readErr : Option IOErr) (restoreOk : Bool) :
    GuardedRead :=
  if failGet1 then ⟨.error .queryFailed, src, false, none, t⟩
  else if failGet2 then ⟨.error .queryFailed, src, false, none, t⟩
  else if failSet then ⟨.error .mutationFailed, src, false, none, t⟩
  else
    let hidden := hiddenTermios t
    let final := if restoreOk then t else hidden
    match readErr with
    | some e => ⟨.error e, src, true, some hidden, final⟩
    | none =>
      let (line, rest) := read_line src
      ⟨fix_line_issues line, rest, true, some hidden, final⟩

/-! Windows variant (src/windows.rs and the windows module of src/lib.rs).
The console mode is a bitmask; after the read, one newline byte is written
to standard output before the function returns. -/

/-- Console mode flag requesting line-buffered input. -/
def ENABLE_LINE_INPUT : Nat := 2

/-- Console mode flag keeping control-sequence processing (backspace). -/
def ENABLE_PROCESSED_INPUT : Nat := 1

/-- Observable outcome of one guarded read on the windows side: the
returned value, the unconsumed console input, the bytes written to
standard output, and the console mode once the call returns. -/
structure WinRead where
  result : Except IOErr (List Char)
  rest : List Char
  stdoutBytes : List Char
  finalMode : Nat
deriving DecidableEq, Repr

/-- Embedding of the guarded windows read (src/windows.rs `from_tty` after
the console handle is open): construct the `HiddenInput` guard
(`GetConsoleMode` then `SetConsoleMode`), read and normalize with
`from_bufread`, write one newline byte to standard output, and return the
write error if the write failed, otherwise the read result; the guard drop
restores the saved mode in every post-construction path. `failGetMode` and
`failSetMode` inject guard-construction failures, `readErr` a read failure,
`writeErr` a failure of the newline write (a failed write emits nothing). -/
def from_handle_with_hidden_input (mode : Nat) (failGetMode failSetMode : Bool)
    (src : List Char) (readErr : Option IOErr) (writeErr : Option IOErr) :
    WinRead :=
  if failGetMode then ⟨.error .queryFailed, src, [], mode⟩
  else if failSetMode then ⟨.error .mutationFailed, src, [], mode⟩
  else
    let (readRes, rest) :=
      match readErr with
      | some e => ((Except.error e : Except IOErr (List Char)), src)
      | none => from_bufread src
    match writeErr with
    | some e => ⟨.error e, rest, [], mode⟩
    | none => ⟨readRes, rest, ['\n'], mode⟩

end Readpass

namespace Readpass

/-! Helper lemmas shared by the claim theorems below. -/

theorem read_line_no_newline (src : List Char) (h : '\n' ∉ src) :
    read_line src = (src, []) := by
  induction src with
  | nil => rfl
  | cons c cs ih =>
    have hc : c ≠ '\n' := fun hc => h (hc ▸ List.mem_cons_self c cs)
    have hcs : '\n' ∉ cs := fun hx => h (List.mem_cons_of_mem _ hx)
    simp [read_line, hc, ih hcs]

theorem read_line_append (m r : List Char) (hm : '\n' ∉ m) :
    read_line (m ++ '\n' :: r) = (m ++ ['\n'], r) := by
  induction m with
  | nil => simp [read_line]
  | cons c cs ih =>
    have hc : c ≠ '\n' := fun hc => hm (hc ▸ List.mem_cons_self c cs)
    have hcs : '\n' ∉ cs := fun hx => hm (List.mem_cons_of_mem _ hx)
    simp [read_line, hc, ih hcs]

theorem read_line_shape (src : List Char) :
    ('\n' ∉ src ∧ read_line src = (src, [])) ∨
    ∃ m rest, '\n' ∉ m ∧ src = m ++ '\n' :: rest ∧
      read_line src = (m ++ ['\n'], rest) := by
  induction src with
  | nil => exact Or.inl ⟨by simp, rfl⟩
  | cons c cs ih =>
    by_cases hc : c = '\n'
    · exact Or.inr ⟨[], cs, by simp, by simp [hc], by simp [read_line, hc]⟩
    · rcases ih with ⟨h1, h2⟩ | ⟨m, rest, h1, h2, h3⟩
      · refine Or.inl ⟨?_, ?_⟩
        · simp [List.mem_cons, Ne.symm hc, h1]
        · simp [read_line, hc, h2]
      · refine Or.inr ⟨c :: m, rest, ?_, by simp [h2], ?_⟩
        · simp [List.mem_cons, Ne.symm hc, h1]
        · simp [read_line, hc, h3]

theorem rfind_eq_none (c : Char) (l : List Char) : rfind c l = none ↔ c ∉ l := by
  induction l with
  | nil => simp [rfind]
  | cons a as ih =>
    rw [rfind]
    cases h : rfind c as with
    | some i =>
      simp only [reduceCtorEq, false_iff]
      intro hmem
      have has : c ∉ as := fun hx => hmem (List.mem_cons_of_mem _ hx)
      rw [ih.mpr has] at h
      exact Option.noConfusion h
    | none =>
      have has : c ∉ as := ih.mp h
      by_cases hac : a = c
      · simp [hac]
      · simp [hac, List.mem_cons, Ne.symm hac, has]

theorem rfind_spec (c : Char) (l : List Char) (i : Nat) (h : rfind c l = some i) :
    ∃ p, l = p ++ c :: l.drop (i + 1) ∧ c ∉ l.drop (i + 1) := by
  induction l generalizing i with
  | nil => exact Option.noConfusion h
  | cons a as ih =>
    rw [rfind] at h
    cases h' : rfind c as with
    | some j =>
      rw [h'] at h
      obtain rfl : j + 1 = i := Option.some.inj h
      obtain ⟨p, hp, hn⟩ := ih j h'
      refine ⟨a :: p, ?_, ?_⟩
      · rw [List.drop_succ_cons]
        exact congrArg (a :: ·) hp
      · rw [List.drop_succ_cons]
        exact hn
    | none =>
      rw [h'] at h
      by_cases hac : a = c
      · rw [if_pos hac] at h
        obtain rfl : 0 = i := Option.some.inj h
        refine ⟨[], ?_, ?_⟩
        · simp [hac]
        · simpa using (rfind_eq_none c as).mp h'
      · rw [if_neg hac] at h
        exact Option.noConfusion h

theorem takeWhile_append_stop (p : Char → Bool) (xs ys : List Char) (c : Char)
    (hxs : ∀ x ∈ xs, p x = true) (hc : p c = false) :
    (xs ++ c :: ys).takeWhile p = xs := by
  induction xs with
  | nil => simp [List.takeWhile, hc]
  | cons a as ih =>
    have ha : p a = true := hxs a (List.mem_cons_self a as)
    rw [List.cons_append, List.takeWhile_cons, ha]
    simp only [ite_true]
    rw [ih fun x hx => hxs x (List.mem_cons_of_mem _ hx)]

theorem drop_rfind_eq_killSuffix (l : List Char) (i : Nat)
    (h : rfind ctrlU l = some i) : l.drop (i + 1) = killSuffix l := by
  obtain ⟨p, hp, hn⟩ := rfind_spec ctrlU l i h
  rw [killSuffix]
  conv_rhs => rw [hp]
  rw [List.reverse_append, List.reverse_cons, List.append_assoc,
    List.singleton_append]
  rw [takeWhile_append_stop _ _ _ ctrlU ?_ (by simp)]
  · rw [List.reverse_reverse]
  · intro x hx
    have hxm : x ∈ l.drop (i + 1) := by simpa using hx
    simp only [bne_iff_ne, ne_eq]
    exact fun hq => hn (hq ▸ hxm)

theorem fix_line_issues_crlf (s : List Char) (h : ctrlU ∉ s) :
    fix_line_issues (s ++ ['\r', '\n']) = .ok s := by
  have hs : s ++ ['\r', '\n'] = (s ++ ['\r']) ++ ['\n'] := by simp
  rw [hs, fix_line_issues]
  simp [List.getLast?_concat, List.dropLast_concat, h]

theorem fix_line_issues_lf (s : List Char) (h : ctrlU ∉ s)
    (h2 : s.getLast? ≠ some '\r') :
    fix_line_issues (s ++ ['\n']) = .ok s := by
  rw [fix_line_issues]
  simp [List.getLast?_concat, List.dropLast_concat, h, h2]

theorem fix_line_issues_eq_of_newline (line : List Char)
    (h : line.getLast? = some '\n') :
    fix_line_issues line =
      .ok (if ctrlU ∈ trimmed line then
             match rfind ctrlU (trimmed line) with
             | some i => (trimmed line).drop (i + 1)
             | none => trimmed line
           else trimmed line) := by
  rw [fix_line_issues, trimmed]
  simp [h]

theorem fix_line_issues_isOk (line : List Char) (h : line.getLast? = some '\n') :
    ∃ v, fix_line_issues line = .ok v := by
  rw [fix_line_issues_eq_of_newline line h]
  exact ⟨_, rfl⟩

theorem fix_line_issues_traced_fst (line : List Char) :
    (fix_line_issues_traced line).1 = fix_line_issues line := by
  rw [fix_line_issues_traced, fix_line_issues]
  split
  · rfl
  · dsimp only
    repeat' split
    all_goals rfl

theorem from_bufread_eof_fst (src : List Char) (h : '\n' ∉ src) :
    (from_bufread src).1 = .error .unexpectedEof := by
  have h2 : src.getLast? ≠ some '\n' :=
    fun hc => h (List.mem_of_getLast?_eq_some hc)
  simp only [from_bufread, read_line_no_newline src h]
  simp [fix_line_issues, h2]

/-! Claim theorems. -/

/-- C1, counterexample: the claim says a source whose bytes end without a
trailing line feed is normalized to a success; the code instead returns an
unexpected-end-of-file error. At the concrete source "abc", `from_bufread`
returns the error, not the success value "abc" the claim predicts. -/
theorem from_bufread_no_newline_not_ok :
    from_bufread ['a', 'b', 'c'] = (.error .unexpectedEof, [])
    ∧ (from_bufread ['a', 'b', 'c']).1 ≠ .ok ['a', 'b', 'c'] := by
  decide

/-- C1, amended: for every source whose remaining bytes end without a
trailing line feed (end of input before any line feed), `from_bufread`
returns an unexpected-end-of-file error, the stricter policy, rather than
whatever was read. -/
theorem from_bufread_unexpected_eof (src : List Char) (h : '\n' ∉ src) :
    (from_bufread src).1 = .error .unexpectedEof :=
  from_bufread_eof_fst src h

/-- C1 witness: the amended claim at the concrete source "abc". -/
theorem from_bufread_unexpected_eof_witness :
    (from_bufread ['a', 'b', 'c']).1 = .error .unexpectedEof :=
  from_bufread_unexpected_eof ['a', 'b', 'c'] (by decide)

/-- C2: for every guarded read, whether the read succeeds or returns an
error (`readErr` ranges over both), dropping the `HiddenInput` guard
reapplies the settings snapshot taken at acquisition, so the terminal
settings after release are bit-for-bit equal to the pre-acquisition
settings. -/
theorem hidden_input_drop_restores_settings (t : Termios) (src : List Char)
    (readErr : Option IOErr) :
    (from_fd_with_hidden_input t false false false src readErr true).finalSettings
        = t := by
  cases readErr <;> simp [from_fd_with_hidden_input]

/-- C3: for every line ending in a line feed whose terminator-trimmed form
contains the line-kill character 0x15, normalization keeps exactly the
suffix strictly after the last occurrence (`killSuffix`, which contains no
further 0x15); on the concrete inputs of the claim, "A.<0x15>B.\n" yields
"B." and "A.<0x15>\n" yields the empty string. -/
theorem fix_line_issues_line_kill :
    (∀ line, line.getLast? = some '\n' → ctrlU ∈ trimmed line →
        fix_line_issues line = .ok (killSuffix (trimmed line))
        ∧ ctrlU ∉ killSuffix (trimmed line))
    ∧ fix_line_issues ['A', '.', ctrlU, 'B', '.', '\n'] = .ok ['B', '.']
    ∧ fix_line_issues ['A', '.', ctrlU, '\n'] = .ok [] := by
  refine ⟨?_, by decide, by decide⟩
  intro line h1 h2
  rw [fix_line_issues_eq_of_newline line h1, if_pos h2]
  cases hr : rfind ctrlU (trimmed line) with
  | none => exact absurd h2 ((rfind_eq_none _ _).mp hr)
  | some i =>
    have hks := drop_rfind_eq_killSuffix _ _ hr
    obtain ⟨p, hp, hn⟩ := rfind_spec ctrlU (trimmed line) i hr
    constructor
    · show Except.ok ((trimmed line).drop (i + 1))
          = Except.ok (killSuffix (trimmed line))
      rw [hks]
    · rw [← hks]
      exact hn

/-- C3 witness: the universal part of the claim applied at the concrete
line "A.<0x15>B.\n". -/
theorem fix_line_issues_line_kill_witness :
    fix_line_issues ['A', '.', ctrlU, 'B', '.', '\n']
        = .ok (killSuffix (trimmed ['A', '.', ctrlU, 'B', '.', '\n']))
    ∧ ctrlU ∉ killSuffix (trimmed ['A', '.', ctrlU, 'B', '.', '\n']) :=
  fix_line_issues_line_kill.1 ['A', '.', ctrlU, 'B', '.', '\n']
    (by decide) (by decide)

/-- C4: normalization removes exactly one trailing line feed and then
exactly one trailing carriage return if present, and two successive
`from_bufread` calls on a two-line source (CRLF or LF terminated) yield the
two lines in order, the second call starting exactly at the unconsumed
remainder of the first. -/
theorem from_bufread_trims_terminators :
    (∀ s : List Char, ctrlU ∉ s → fix_line_issues (s ++ ['\r', '\n']) = .ok s)
    ∧ (∀ s : List Char, ctrlU ∉ s → s.getLast? ≠ some '\r' →
        fix_line_issues (s ++ ['\n']) = .ok s)
    ∧ (∀ a b : List Char, '\n' ∉ a → ctrlU ∉ a → '\n' ∉ b → ctrlU ∉ b →
        from_bufread (a ++ '\r' :: '\n' :: (b ++ ['\r', '\n']))
            = (.ok a, b ++ ['\r', '\n'])
        ∧ from_bufread (b ++ ['\r', '\n']) = (.ok b, []))
    ∧ (∀ a b : List Char, '\n' ∉ a → ctrlU ∉ a → a.getLast? ≠ some '\r' →
        '\n' ∉ b → ctrlU ∉ b → b.getLast? ≠ some '\r' →
        from_bufread (a ++ '\n' :: (b ++ ['\n'])) = (.ok a, b ++ ['\n'])
        ∧ from_bufread (b ++ ['\n']) = (.ok b, [])) := by
  refine ⟨fix_line_issues_crlf, fix_line_issues_lf, ?_, ?_⟩
  · intro a b ha hu hb hv
    constructor
    · have h1 : '\n' ∉ a ++ ['\r'] := by simp [List.mem_append, ha]
      calc from_bufread (a ++ '\r' :: '\n' :: (b ++ ['\r', '\n']))
          = from_bufread ((a ++ ['\r']) ++ '\n' :: (b ++ ['\r', '\n'])) := by
            simp
        _ = (fix_line_issues ((a ++ ['\r']) ++ ['\n']), b ++ ['\r', '\n']) := by
            simp only [from_bufread, read_line_append _ _ h1]
        _ = (.ok a, b ++ ['\r', '\n']) := by
            rw [show (a ++ ['\r']) ++ ['\n'] = a ++ ['\r', '\n'] from by simp,
              fix_line_issues_crlf a hu]
    · have h1 : '\n' ∉ b ++ ['\r'] := by simp [List.mem_append, hb]
      calc from_bufread (b ++ ['\r', '\n'])
          = from_bufread ((b ++ ['\r']) ++ '\n' :: ([] : List Char)) := by simp
        _ = (fix_line_issues ((b ++ ['\r']) ++ ['\n']), ([] : List Char)) := by
            simp only [from_bufread, read_line_append _ _ h1]
        _ = (.ok b, ([] : List Char)) := by
            rw [show (b ++ ['\r']) ++ ['\n'] = b ++ ['\r', '\n'] from by simp,
              fix_line_issues_crlf b hv]
  · intro a b ha hu ha2 hb hv hb2
    constructor
    · calc from_bufread (a ++ '\n' :: (b ++ ['\n']))
          = (fix_line_issues (a ++ ['\n']), b ++ ['\n']) := by
            simp only [from_bufread, read_line_append _ _ ha]
        _ = (.ok a, b ++ ['\n']) := by rw [fix_line_issues_lf a hu ha2]
    · calc from_bufread (b ++ ['\n'])
          = from_bufread (b ++ '\n' :: ([] : List Char)) := by simp
        _ = (fix_line_issues (b ++ ['\n']), ([] : List Char)) := by
            simp only [from_bufread, read_line_append _ _ hb]
        _ = (.ok b, ([] : List Char)) := by rw [fix_line_issues_lf b hv hb2]

/-- C4 witness: the CRLF sequential part applied at the two concrete lines
"A." and "B.". -/
theorem from_bufread_trims_terminators_witness :
    (from_bufread (['A', '.'] ++ '\r' :: '\n' :: (['B', '.'] ++ ['\r', '\n']))
        = (.ok ['A', '.'], ['B', '.'] ++ ['\r', '\n'])
      ∧ from_bufread (['B', '.'] ++ ['\r', '\n']) = (.ok ['B', '.'], [])) :=
  from_bufread_trims_terminators.2.2.1 ['A', '.'] ['B', '.']
    (by decide) (by decide) (by decide) (by decide)

/-- C5, counterexample: the claim says every buffer that held secret bytes
is overwritten before it is deallocated or replaced; but on the input
"A.<0x15>B.\n" the buffer holding the secret bytes "A.<0x15>B." is
replaced by the extracted suffix with `overwrittenBeforeFree = false` (the
code contains no erasure call inside normalization). -/
theorem line_kill_buffer_freed_unzeroized :
    (fix_line_issues_traced ['A', '.', ctrlU, 'B', '.', '\n']).2
        = [⟨['A', '.', ctrlU, 'B', '.'], false⟩]
    ∧ (fix_line_issues_traced ['A', '.', ctrlU, 'B', '.', '\n']).1
        = .ok ['B', '.'] := by
  decide

/-- C5, amended: normalization itself overwrites no buffer it deallocates
or replaces: every buffer-lifetime event of `fix_line_issues_traced`, in
particular the buffer replaced when a line-kill suffix is extracted and the
line dropped on the error path, records that the bytes were not overwritten
before the memory was given up. (Erasure is provided only for the final
returned value, by the `Zeroizing` wrapper declared in the signature of
`from_tty`, outside normalization.) -/
theorem fix_line_issues_never_overwrites (line : List Char) (ev : BufEvent)
    (h : ev ∈ (fix_line_issues_traced line).2) :
    ev.overwrittenBeforeFree = false := by
  rw [fix_line_issues_traced] at h
  dsimp only at h
  repeat' split at h
  all_goals simp_all

/-- C5 witness: the amended claim applied at the line "A.<0x15>B.\n" and
its replaced buffer. -/
theorem fix_line_issues_never_overwrites_witness :
    (⟨['A', '.', ctrlU, 'B', '.'], false⟩ : BufEvent).overwrittenBeforeFree
        = false :=
  fix_line_issues_never_overwrites ['A', '.', ctrlU, 'B', '.', '\n']
    ⟨['A', '.', ctrlU, 'B', '.'], false⟩ (by decide)

/-- C6: while the guard is alive the settings in force equal the captured
snapshot with the ECHO flag cleared and the ECHONL flag set, and every
other bit of the 32-bit line-discipline flag word, as well as every other
`termios` field, unchanged. -/
theorem hidden_input_clears_echo_sets_echonl (t : Termios) (src : List Char)
    (readErr : Option IOErr) :
    (from_fd_with_hidden_input t false false false src readErr true).settingsDuringRead
        = some (hiddenTermios t)
    ∧ (hiddenTermios t).c_lflag &&& ECHO = 0
    ∧ (hiddenTermios t).c_lflag &&& ECHONL = ECHONL
    ∧ (hiddenTermios t).c_rest = t.c_rest
    ∧ (∀ i, i < 32 → i ≠ 3 → i ≠ 6 →
        (hiddenTermios t).c_lflag.testBit i = t.c_lflag.testBit i) := by
  have hE : ECHO = 2 ^ 3 := by norm_num [ECHO]
  have hEN : ECHONL = 2 ^ 6 := by norm_num [ECHONL]
  have hM : TCFLAG_MASK = 2 ^ 32 - 1 := rfl
  refine ⟨?_, ?_, ?_, rfl, ?_⟩
  · cases readErr <;> simp [from_fd_with_hidden_input]
  · refine Nat.eq_of_testBit_eq fun j => ?_
    simp only [hiddenTermios, hE, hEN, hM, Nat.testBit_and, Nat.testBit_or,
      Nat.testBit_xor, Nat.testBit_two_pow, Nat.testBit_two_pow_sub_one,
      Nat.zero_testBit]
    by_cases hj : j = 3
    · subst hj
      simp
    · simp [hj, Ne.symm hj]
  · refine Nat.eq_of_testBit_eq fun j => ?_
    simp only [hiddenTermios, hE, hEN, hM, Nat.testBit_and, Nat.testBit_or,
      Nat.testBit_xor, Nat.testBit_two_pow, Nat.testBit_two_pow_sub_one]
    by_cases hj : j = 6
    · subst hj
      simp
    · simp [hj, Ne.symm hj]
  · intro i h32 h3 h6
    simp only [hiddenTermios, hE, hEN, hM, Nat.testBit_and, Nat.testBit_or,
      Nat.testBit_xor, Nat.testBit_two_pow, Nat.testBit_two_pow_sub_one]
    simp [h32, Ne.symm h3, Ne.symm h6]

/-- C6 witness: the claim applied at the concrete snapshot with
`c_lflag = 255`, checking preservation at bit 4. -/
theorem hidden_input_clears_echo_sets_echonl_witness :
    (from_fd_with_hidden_input ⟨255, 5⟩ false false false ['x', '\n'] none
        true).settingsDuringRead = some (hiddenTermios ⟨255, 5⟩)
    ∧ (hiddenTermios (⟨255, 5⟩ : Termios)).c_lflag &&& ECHO = 0
    ∧ (hiddenTermios (⟨255, 5⟩ : Termios)).c_lflag &&& ECHONL = ECHONL
    ∧ (hiddenTermios (⟨255, 5⟩ : Termios)).c_rest = (⟨255, 5⟩ : Termios).c_rest
    ∧ (hiddenTermios (⟨255, 5⟩ : Termios)).c_lflag.testBit 4
        = (⟨255, 5⟩ : Termios).c_lflag.testBit 4 := by
  obtain ⟨h1, h2, h3, h4, h5⟩ :=
    hidden_input_clears_echo_sets_echonl ⟨255, 5⟩ ['x', '\n'] none
  exact ⟨h1, h2, h3, h4, h5 4 (by decide) (by decide) (by decide)⟩

/-- C7: if querying the current terminal settings fails (either `tcgetattr`
call) or applying the modified settings fails, guard construction returns
that error (settings-query or settings-mutation respectively), no byte of
the source is consumed, no read is attempted, the modified settings never
take effect, and the terminal settings are left exactly as they were. -/
theorem guard_construction_failure_no_read (t : Termios) (src : List Char)
    (readErr : Option IOErr) (restoreOk : Bool)
    (failGet1 failGet2 failSet : Bool)
    (h : failGet1 = true ∨ failGet2 = true ∨ failSet = true) :
    ((from_fd_with_hidden_input t failGet1 failGet2 failSet src readErr
          restoreOk).result = .error .queryFailed
      ∨ (from_fd_with_hidden_input t failGet1 failGet2 failSet src readErr
          restoreOk).result = .error .mutationFailed)
    ∧ (from_fd_with_hidden_input t failGet1 failGet2 failSet src readErr
        restoreOk).rest = src
    ∧ (from_fd_with_hidden_input t failGet1 failGet2 failSet src readErr
        restoreOk).readAttempted = false
    ∧ (from_fd_with_hidden_input t failGet1 failGet2 failSet src readErr
        restoreOk).settingsDuringRead = none
    ∧ (from_fd_with_hidden_input t failGet1 failGet2 failSet src readErr
        restoreOk).finalSettings = t := by
  cases failGet1 <;> cases failGet2 <;> cases failSet <;>
    simp_all [from_fd_with_hidden_input]

/-- C7 witness: the claim at a concrete snapshot with the settings-mutation
call failing. -/
theorem guard_construction_failure_no_read_witness :
    ((from_fd_with_hidden_input ⟨7, 0⟩ false false true ['a'] none
          true).result = .error .queryFailed
      ∨ (from_fd_with_hidden_input ⟨7, 0⟩ false false true ['a'] none
          true).result = .error .mutationFailed)
    ∧ (from_fd_with_hidden_input ⟨7, 0⟩ false false true ['a'] none
        true).rest = ['a']
    ∧ (from_fd_with_hidden_input ⟨7, 0⟩ false false true ['a'] none
        true).readAttempted = false
    ∧ (from_fd_with_hidden_input ⟨7, 0⟩ false false true ['a'] none
        true).settingsDuringRead = none
    ∧ (from_fd_with_hidden_input ⟨7, 0⟩ false false true ['a'] none
        true).finalSettings = ⟨7, 0⟩ :=
  guard_construction_failure_no_read ⟨7, 0⟩ ['a'] none true false false true
    (Or.inr (Or.inr rfl))

/-- C8: a source whose next byte is a line feed (an empty line) yields a
successful empty string, not an error. -/
theorem from_bufread_empty_line : from_bufread ['\n'] = (.ok [], []) := by
  decide

/-- C9: whenever `from_bufread` succeeds, the returned string contains no
line-kill character 0x15 and does not end with a line feed. (It may still
end with a carriage return, as the witness input "a\r\r\n", whose result
is "a\r", shows: only one trailing carriage return is removed.) -/
theorem from_bufread_result_invariants (src r rest : List Char)
    (h : from_bufread src = (.ok r, rest)) :
    ctrlU ∉ r ∧ r.getLast? ≠ some '\n' := by
  rcases read_line_shape src with ⟨hnl, heq⟩ | ⟨m, rest', hm, hsrc, heq⟩
  · exfalso
    have h1 := from_bufread_eof_fst src hnl
    rw [h] at h1
    exact Except.noConfusion h1
  · have hline : (m ++ ['\n']).getLast? = some '\n' := List.getLast?_concat m
    simp only [from_bufread, heq] at h
    injection h with hfix hrest
    have htsub : ∀ x, x ∈ trimmed (m ++ ['\n']) → x ∈ m := by
      intro x hx
      rw [trimmed, List.dropLast_concat] at hx
      by_cases hr' : m.getLast? = some '\r'
      · rw [if_pos hr'] at hx
        exact (List.dropLast_sublist m).subset hx
      · rw [if_neg hr'] at hx
        exact hx
    have htn : '\n' ∉ trimmed (m ++ ['\n']) := fun hx => hm (htsub _ hx)
    rw [fix_line_issues_eq_of_newline _ hline] at hfix
    by_cases hc : ctrlU ∈ trimmed (m ++ ['\n'])
    · rw [if_pos hc] at hfix
      cases hrf : rfind ctrlU (trimmed (m ++ ['\n'])) with
      | none => exact absurd hc ((rfind_eq_none _ _).mp hrf)
      | some i =>
        rw [hrf] at hfix
        obtain ⟨p, hp, hn⟩ := rfind_spec ctrlU (trimmed (m ++ ['\n'])) i hrf
        obtain rfl : (trimmed (m ++ ['\n'])).drop (i + 1) = r :=
          Except.ok.inj hfix
        refine ⟨hn, fun hg => ?_⟩
        exact htn ((List.drop_sublist (i + 1) _).subset
          (List.mem_of_getLast?_eq_some hg))
    · rw [if_neg hc] at hfix
      obtain rfl : trimmed (m ++ ['\n']) = r := Except.ok.inj hfix
      exact ⟨hc, fun hg => htn (List.mem_of_getLast?_eq_some hg)⟩

/-- C9 witness: the claim applied at the concrete source "a\r\r\n",
whose successful result "a\r" ends with a carriage return. -/
theorem from_bufread_result_invariants_witness :
    ctrlU ∉ ['a', '\r'] ∧ (['a', '\r'] : List Char).getLast? ≠ some '\n' :=
  from_bufread_result_invariants ['a', '\r', '\r', '\n'] ['a', '\r'] []
    (by decide)

/-- C10: on Windows, after the read completes one newline byte is written
to standard output before returning (first conjunct, for a succeeding or a
failing read); if that write fails, the write error is returned even
though the read succeeded, and the full first line of the source was
consumed (remaining conjuncts). -/
theorem windows_newline_write_error_propagates (mode : Nat)
    (src m r : List Char) (e : IOErr) (readErr : Option IOErr)
    (hsrc : src = m ++ '\n' :: r) (hm : '\n' ∉ m) :
    (from_handle_with_hidden_input mode false false src readErr
        none).stdoutBytes = ['\n']
    ∧ (∃ v, (from_bufread src).1 = .ok v)
    ∧ (from_handle_with_hidden_input mode false false src none
        (some e)).result = .error e
    ∧ (from_handle_with_hidden_input mode false false src none
        (some e)).rest = r
    ∧ (from_handle_with_hidden_input mode false false src none
        (some e)).stdoutBytes = []
    ∧ (from_handle_with_hidden_input mode false false src none
        (some e)).finalMode = mode := by
  subst hsrc
  have hread : read_line (m ++ '\n' :: r) = (m ++ ['\n'], r) :=
    read_line_append m r hm
  have hok : ∃ v, fix_line_issues (m ++ ['\n']) = .ok v :=
    fix_line_issues_isOk _ (List.getLast?_concat m)
  refine ⟨?_, ?_, ?_, ?_, ?_, ?_⟩
  · cases readErr <;>
      simp [from_handle_with_hidden_input, from_bufread, hread]
  · obtain ⟨v, hv⟩ := hok
    exact ⟨v, by simp [from_bufread, hread, hv]⟩
  · simp [from_handle_with_hidden_input, from_bufread, hread]
  · simp [from_handle_with_hidden_input, from_bufread, hread]
  · simp [from_handle_with_hidden_input, from_bufread, hread]
  · simp [from_handle_with_hidden_input, from_bufread, hread]

/-- C10 witness: the claim at the concrete console input "hi\n" with the
newline write failing. -/
theorem windows_newline_write_error_propagates_witness :
    (from_handle_with_hidden_input 3 false false ['h', 'i', '\n'] none
        none).stdoutBytes = ['\n']
    ∧ (∃ v, (from_bufread ['h', 'i', '\n']).1 = .ok v)
    ∧ (from_handle_with_hidden_input 3 false false ['h', 'i', '\n'] none
        (some .writeFailed)).result = .error .writeFailed
    ∧ (from_handle_with_hidden_input 3 false false ['h', 'i', '\n'] none
        (some .writeFailed)).rest = []
    ∧ (from_handle_with_hidden_input 3 false false ['h', 'i', '\n'] none
        (some .writeFailed)).stdoutBytes = []
    ∧ (from_handle_with_hidden_input 3 false false ['h', 'i', '\n'] none
        (some .writeFailed)).finalMode = 3 :=
  windows_newline_write_error_propagates 3 ['h', 'i', '\n'] ['h', 'i'] []
    .writeFailed none (by decide) (by decide)

end Readpass
